import Mathlib

/-!
Verification development for the distance-driven SVG map module
(`map-visualization`): the length normalizer `toRel`, the distance
expression parsing inside `buildMapDataFromEntries`, the graph builder,
the spring-relaxation layout solver `layoutNodesByDistances`, and the
projector `projectRelativePositions`.

Numbers that stay in the data layer (frontmatter values, option fields,
edge lengths) are modelled as rationals; solver and projector positions
are modelled as real numbers because the solver uses `Math.sqrt`,
`Math.cos` and `Math.sin`.  A JavaScript number that may be `NaN` or
missing is modelled as an `Option`.
-/

namespace MapViz

/-- JS whitespace class `\s`, restricted to the ASCII range (space, tab,
newline, carriage return, vertical tab, form feed).  The non-ASCII space
code points of `\s` are not modelled; no caller in this repository feeds
them. -/
def isWs (c : Char) : Bool :=
  c = ' ' || c = '\t' || c = '\n' || c = '\r' || c = '\x0b' || c = '\x0c'

/-- Characters matched by `.` in a JS regex without the `s` flag:
everything except the four line terminators. -/
def dotChar (c : Char) : Bool :=
  !(c = '\n' || c = '\r' || c = (Char.ofNat 0x2028) || c = (Char.ofNat 0x2029))

/-- Strip leading and trailing JS whitespace from a character list
(models `String.prototype.trim` and the `\s*` anchors of the regexes). -/
def jsTrimL (l : List Char) : List Char :=
  ((l.dropWhile isWs).reverse.dropWhile isWs).reverse

/-- Model of `String.prototype.trim`. -/
def jsTrim (s : String) : String :=
  ⟨jsTrimL s.data⟩

/-- Numeric value of a digit list, most significant first. -/
def digitsVal (l : List Char) : ℕ :=
  l.foldl (fun acc c => acc * 10 + (c.toNat - 48)) 0

/-- Model of `Number(s)` for a string, on decimal literals: optional
whitespace, optional sign, then `digits`, `digits.digits`, `digits.` or
`.digits`; the empty (or all-whitespace) string converts to `0`; every
other string converts to `NaN`, modelled as `none`.  (Hex, binary,
exponent and `Infinity` forms of `Number` are not modelled; the callers
in this module only ever produce decimal digit strings or arbitrary text
that `Number` rejects.) -/
def jsNum (s : String) : Option ℚ :=
  let l := jsTrimL s.data
  if l = [] then some 0
  else
    let sl : ℚ × List Char :=
      match l with
      | '-' :: r => (-1, r)
      | '+' :: r => (1, r)
      | _ => (1, l)
    let sign := sl.1
    let l1 := sl.2
    let d1 := l1.takeWhile Char.isDigit
    let r1 := l1.drop d1.length
    match r1 with
    | '.' :: r2 =>
      let d2 := r2.takeWhile Char.isDigit
      let r3 := r2.drop d2.length
      if r3 = [] ∧ (d1 ≠ [] ∨ d2 ≠ []) then
        some (sign * ((digitsVal d1 : ℚ) + (digitsVal d2 : ℚ) / (10 ^ d2.length)))
      else none
    | [] => if d1 ≠ [] then some (sign * (digitsVal d1 : ℚ)) else none
    | _ => none

/-- Model of `toRel` of the source, after the `Number(n)` coercion: the argument
`none` stands for a non-finite conversion result (`NaN` or `±Infinity`),
`some v` for a finite numeric value.  Values in `[0,1]` pass through,
values in `[0,100]` are divided by `100`, everything else is rejected. -/
def toRel : Option ℚ → Option ℚ
  | none => none
  | some v =>
    if 0 ≤ v ∧ v ≤ 1 then some v
    else if 0 ≤ v ∧ v ≤ 100 then some (v / 100)
    else none

/-- Match of `^\s*\[\[(.+?)\]\]\s*$` against a string, returning the
capture group.  After stripping the `\s*` anchors the string must be
`[[` … `]]`; the lazy capture is the (nonempty) middle, which may not
contain a line terminator (`.` does not match those).  The lazy `+?` is
deterministic here: the only closing `]]` whose remainder is
whitespace-only is the final one. -/
def wikiMatch (s : String) : Option String :=
  match jsTrimL s.data with
  | '[' :: '[' :: rest =>
    match rest.reverse with
    | ']' :: ']' :: midRev =>
      let mid := midRev.reverse
      if mid ≠ [] ∧ mid.all dotChar then some ⟨mid⟩ else none
    | _ => none
  | _ => none

/-- Tail of the delimited form after the captured number:
`\)?\s*$` — an optional closing parenthesis followed by whitespace. -/
def closeOk (l : List Char) : Bool :=
  match l with
  | ')' :: r => r.all isWs
  | _ => l.all isWs

/-- Match of `(\d+(?:\.\d+)?)\)?\s*$`: greedy digit run, optionally a fraction
(tried first, as the greedy optional group does), then `closeOk`.
Returns the matched number string. -/
def numClose (l : List Char) : Option String :=
  let d1 := l.takeWhile Char.isDigit
  if d1 = [] then none
  else
    let r1 := l.drop d1.length
    match r1 with
    | '.' :: r2 =>
      let d2 := r2.takeWhile Char.isDigit
      if d2 ≠ [] ∧ closeOk (r2.drop d2.length) then some ⟨d1 ++ '.' :: d2⟩
      else if closeOk r1 then some ⟨d1⟩ else none
    | _ => if closeOk r1 then some ⟨d1⟩ else none

/-- Match of `\s*(?:@|\(|:|\|)\s*` followed by `numClose`: the suffix a lazy
capture position must admit in the delimited trailing-number form. -/
def sepTail (l : List Char) : Option String :=
  match l.dropWhile isWs with
  | c :: rest =>
    if c = '@' || c = '(' || c = ':' || c = '|' then numClose (rest.dropWhile isWs)
    else none
  | [] => none

/-- Scan for the lazy capture of
`^(.*?)\s*(?:@|\(|:|\|)\s*(\d+(?:\.\d+)?)\)?\s*$`: the shortest prefix
(through characters `.` can match) whose remainder matches `sepTail`.
Returns (capture, number string). -/
def delimScan : List Char → List Char → Option (List Char × String)
  | pre, rest =>
    match sepTail rest with
    | some num => some (pre, num)
    | none =>
      match rest with
      | [] => none
      | c :: cs => if dotChar c then delimScan (pre ++ [c]) cs else none

/-- Match of the delimited trailing-number regex against a string. -/
def delimMatch (s : String) : Option (String × String) :=
  (delimScan [] s.data).map (fun pr => (⟨pr.1⟩, pr.2))

/-- Model of `String.prototype.split` with a one-character separator, on
character lists: the list of fields between occurrences of the
separator. -/
def splitOnChar (ch : Char) : List Char → List (List Char)
  | [] => [[]]
  | x :: xs =>
    match splitOnChar ch xs with
    | [] => [[]]
    | h :: t => if x = ch then [] :: h :: t else (x :: h) :: t

/-- One raw item of a frontmatter distance list: a string, an object
with `target`/`path`/`id` and `distance`/`length` fields, or any other
value (which the source ignores).  For an object, `dl` is the JS value
`p.distance ?? p.length` after `Number` coercion (`none` for a
non-finite result such as `Number(undefined)`). -/
inductive DistItem where
  | str (s : String)
  | obj (target pth idf : Option String) (dl : Option ℚ)
  | other
deriving DecidableEq

/-- JS `a || b` on optional strings: `a` when it is a nonempty string,
otherwise `b`. -/
def jsOr (a b : Option String) : Option String :=
  match a with
  | some s => if s = "" then b else some s
  | none => b

/-- The per-item part of the distance loop in `buildMapDataFromEntries`
(lines 173–211 of the source): produce the target identifier, if any,
and the optional normalized relative length. -/
def parseDistanceItem : DistItem → Option String × Option ℚ
  | .str p =>
    match wikiMatch p with
    | some inside =>
      let parts := (splitOnChar '#' inside.data).map (fun l => (⟨l⟩ : String))
      let linkPath := parts.headD ""
      let frag := parts.get? 1
      let target : Option String :=
        if linkPath ≠ "" then some (jsTrim linkPath) else none
      let len : Option ℚ :=
        match frag with
        | some fs => if fs ≠ "" then toRel (jsNum (jsTrim fs)) else none
        | none => none
      (target, len)
    | none =>
      match delimMatch p with
      | some m => (some (jsTrim m.1), toRel (jsNum m.2))
      | none => (some (jsTrim p), none)
  | .obj tgt pth idf dl => (jsOr (jsOr tgt pth) idf, toRel dl)
  | .other => (none, none)

/-- One frontmatter value, as read through a configurable key. -/
inductive FmVal where
  | absent
  | str (s : String)
  | num (q : ℚ)
  | boolv (b : Bool)
  | list (items : List DistItem)
deriving DecidableEq

/-- Model of `entry.file` of an external record: its path and basename. -/
structure EFile where
  path : String
  basename : String
deriving DecidableEq

/-- One external record; `file` is `none` when `entry?.file` is absent. -/
structure Entry where
  file : Option EFile
deriving DecidableEq

/-- The external collaborators the builder reads through: `fileOk p`
models `app.vault.getAbstractFileByPath(p)` returning a file with an
`extension` field; `fm p k` models
`app.metadataCache.getFileCache(tfile)?.frontmatter?.[k]` (with a
missing cache giving `absent` for every key); `resolve` models
`app.metadataCache.getFirstLinkpathDest?.(target, fromPath)?.path`. -/
structure App where
  fileOk : String → Bool
  fm : String → String → FmVal
  resolve : String → String → Option String

/-- A node of the map graph.  `x`/`y` hold the relative coordinate;
`none` models the `Number.NaN` sentinel the builder writes. -/
structure MapNode where
  id : String
  type : String
  name : String
  x : Option ℚ
  y : Option ℚ
  color : Option String
  size : Option ℚ
deriving DecidableEq

/-- A desired-distance edge. -/
structure MapEdge where
  fromId : String
  toId : String
  label : Option String
  length : Option ℚ
deriving DecidableEq

/-- The `MapOptions` bag; every field is optional exactly as in the
source interface.  `iterations` is used only as a loop bound and is
modelled as a natural number. -/
structure MapOptions where
  width : Option ℚ
  height : Option ℚ
  padding : Option ℚ
  defaultSize : Option ℚ
  defaultEdgeLengthRel : Option ℚ
  iterations : Option ℕ
  stiffness : Option ℚ
  damping : Option ℚ
  distancesKeys : Option (List String)
  sizeKey : Option String
  colorKey : Option String
  typeKey : Option String
  nameKey : Option String
  resolveLinks : Option Bool
  normalizeAbsoluteLengths : Option Bool

/-- Options with every field omitted. -/
def noOpts : MapOptions :=
  ⟨none, none, none, none, none, none, none, none, none, none, none, none,
   none, none, none⟩

/-- Model of `(fm[typeKey] as MapEntityType) || 'location'`.  A truthy value that
is not a string cannot inhabit the string-typed `type` field; such
values (a type-level lie in the source) are modelled as the `location`
fallback. -/
def nodeType (v : FmVal) : String :=
  match v with
  | .str s => if s = "" then "location" else s
  | _ => "location"

/-- Model of `fm[nameKey] || file.basename` (string values only, as above). -/
def nodeName (v : FmVal) (basename : String) : String :=
  match v with
  | .str s => if s = "" then basename else s
  | _ => basename

/-- Model of `fm[colorKey]` when it is a string. -/
def nodeColor (v : FmVal) : Option String :=
  match v with
  | .str s => some s
  | _ => none

/-- Model of `typeof fm[sizeKey] === 'number' ? fm[sizeKey] : undefined`. -/
def nodeSize (v : FmVal) : Option ℚ :=
  match v with
  | .num q => some q
  | _ => none

/-- The node built for one valid record (lines 155–163 of the source):
coordinates start as the `NaN` sentinel. -/
def nodeOfEntry (app : App) (tK nK cK sK : String) (f : EFile) : MapNode :=
  ⟨f.path, nodeType (app.fm f.path tK), nodeName (app.fm f.path nK) f.basename,
   none, none, nodeColor (app.fm f.path cK), nodeSize (app.fm f.path sK)⟩

/-- The combined distance list of one record: for each configured key,
the frontmatter value if it is an array, else nothing. -/
def combinedItems (app : App) (dKeys : List String) (f : EFile) : List DistItem :=
  dKeys.foldl
    (fun acc k =>
      acc ++ (match app.fm f.path k with
              | FmVal.list items => items
              | _ => []))
    []

/-- The edges built for one valid record: each parsed item with a
string target yields one edge, with the target resolved through the
link resolver when `resolveLinks` is on. -/
def edgesOfEntry (app : App) (dKeys : List String) (rL : Bool) (f : EFile) :
    List MapEdge :=
  (combinedItems app dKeys f).filterMap
    (fun p =>
      match parseDistanceItem p with
      | (some t, len) =>
        some ⟨f.path, (if rL then (app.resolve t f.path).getD t else t), none, len⟩
      | (none, _) => none)

/-- Model of `!file?.path` and the vault/extension checks, folded into one guard:
the record participates iff it has a nonempty path accepted by
`fileOk`. -/
def entryFile (app : App) (en : Entry) : Option EFile :=
  match en.file with
  | some f => if f.path ≠ "" ∧ app.fileOk f.path then some f else none
  | none => none

/-- One loop step of `buildMapDataFromEntries`: skip an invalid record,
otherwise push its node and append its edges.  (The source also fills a
`idByPath` map that is never read; it is omitted.) -/
def buildStep (app : App) (tK nK cK sK : String) (dKeys : List String) (rL : Bool)
    (acc : List MapNode × List MapEdge) (en : Entry) :
    List MapNode × List MapEdge :=
  match entryFile app en with
  | none => acc
  | some f =>
    (acc.1 ++ [nodeOfEntry app tK nK cK sK f], acc.2 ++ edgesOfEntry app dKeys rL f)

/-- Model of `buildMapDataFromEntries` (lines 133–216 of the source). -/
def buildMapDataFromEntries (app : App) (entries : List Entry) (o : MapOptions) :
    List MapNode × List MapEdge :=
  let tK := o.typeKey.getD "type"
  let nK := o.nameKey.getD "name"
  let cK := o.colorKey.getD "color"
  let sK := o.sizeKey.getD "size"
  let dKeys :=
    match o.distancesKeys with
    | some (k :: ks) => k :: ks
    | _ => ["distances", "pathways"]
  let rL := o.resolveLinks.getD true
  entries.foldl (buildStep app tK nK cK sK dKeys rL) ([], [])

/-! ## The layout solver -/

/-- A node during and after solving: both coordinates are (finite)
reals. -/
structure PNode where
  id : String
  x : ℝ
  y : ℝ

/-- The solver configuration after the destructuring defaults of
`layoutNodesByDistances` (lines 235–240 of the source). -/
structure SolveCfg where
  defaultEdgeLengthRel : ℚ
  iterations : ℕ
  stiffness : ℚ
  damping : ℚ
deriving DecidableEq

/-- Model of the destructuring defaults of the solver options:
`defaultEdgeLengthRel = 0.25, iterations = 200, stiffness = 0.5,
damping = 0.85`. -/
def solveCfg (o : MapOptions) : SolveCfg :=
  ⟨o.defaultEdgeLengthRel.getD 0.25, o.iterations.getD 200,
   o.stiffness.getD 0.5, o.damping.getD 0.85⟩

/-- Model of `rawLens.length ? Math.max(...rawLens) : 0`. -/
def maxLenOf (rawLens : List ℚ) : ℚ :=
  match rawLens with
  | [] => 0
  | x :: xs => xs.foldl max x

/-- The "normalize absolute lengths" pre-pass (lines 242–249): when the
option is set and the largest finite length exceeds 1, every present
length is divided by that maximum. -/
def normalizeLens (o : MapOptions) (edges : List MapEdge) : List MapEdge :=
  let maxLen : ℚ := maxLenOf (edges.filterMap (fun e => e.length))
  if o.normalizeAbsoluteLengths.getD false ∧ 1 < maxLen then
    edges.map
      (fun e =>
        match e.length with
        | some q => ⟨e.fromId, e.toId, e.label, some (q / maxLen)⟩
        | none => e)
  else edges

/-- Angular step `2 * Math.PI / Math.max(1, n)` of the circle
placement. -/
noncomputable def stepOf (n : ℕ) : ℝ :=
  2 * Real.pi / max 1 (n : ℝ)

/-- x coordinate of the circle placement for index `i` of `n` nodes. -/
noncomputable def circleX (n i : ℕ) : ℝ :=
  0.5 + 0.4 * Real.cos ((i : ℝ) * stepOf n)

/-- y coordinate of the circle placement. -/
noncomputable def circleY (n i : ℕ) : ℝ :=
  0.5 + 0.4 * Real.sin ((i : ℝ) * stepOf n)

/-- The initialization loop (lines 251–262): a node whose coordinates
are both finite keeps them, any other node is placed on the circle.
The source guards the loop with a `some(...)` test for a missing
coordinate; running the per-node placement unconditionally is the same
function, because the placement keeps every fully finite node. -/
noncomputable def initAux (n : ℕ) : ℕ → List MapNode → List PNode
  | _, [] => []
  | i, nd :: rest =>
    (match nd.x, nd.y with
     | some qx, some qy => ⟨nd.id, (qx : ℝ), (qy : ℝ)⟩
     | _, _ => ⟨nd.id, circleX n i, circleY n i⟩) :: initAux n (i + 1) rest

/-- Initial solver state from the node list. -/
noncomputable def initNodes (nodes : List MapNode) : List PNode :=
  initAux nodes.length 0 nodes

/-- First index whose node has the given id — `nodes.find(...)` returns
the first matching object, and the source then mutates that object. -/
def findNodeIdx (nodes : List PNode) (i : String) : Option ℕ :=
  match nodes with
  | [] => none
  | nd :: rest =>
    if nd.id = i then some 0 else (findNodeIdx rest i).map (· + 1)

/-- In-place field assignment on the `i`-th element of the node array. -/
def modAt (l : List PNode) (i : ℕ) (f : PNode → PNode) : List PNode :=
  match l, i with
  | [], _ => []
  | p :: r, 0 => f p :: r
  | p :: r, k + 1 => p :: modAt r k f

/-- Assignment to the `x` field of element `i`. -/
def modX (l : List PNode) (i : ℕ) (f : ℝ → ℝ) : List PNode :=
  modAt l i (fun p => ⟨p.id, f p.x, p.y⟩)

/-- Assignment to the `y` field of element `i`. -/
def modY (l : List PNode) (i : ℕ) (f : ℝ → ℝ) : List PNode :=
  modAt l i (fun p => ⟨p.id, p.x, f p.y⟩)

/-- Model of `Math.min(1, Math.max(0, v))`. -/
noncomputable def clamp01R (v : ℝ) : ℝ :=
  min 1 (max 0 v)

/-- Model of `Math.sqrt(dx*dx + dy*dy) || 1e-6`: the distance used as divisor.
The `||` fallback fires exactly when the square root is zero (`NaN`
cannot arise here); it is not a floor at `1e-6`. -/
noncomputable def solverD (dx dy : ℝ) : ℝ :=
  let s := Real.sqrt (dx * dx + dy * dy)
  if s = 0 then 1e-6 else s

/-- One edge update of the relaxation loop (lines 267–290): look up the
two endpoints (first match by id), skip the edge if either is missing,
otherwise move the endpoints by half the corrective force each and clamp
all four coordinates, in the source's assignment order (so aliasing when
both endpoints are the same object behaves as in the source). -/
noncomputable def edgeStep (cfg : SolveCfg) (nodes : List PNode) (e : MapEdge) : List PNode :=
  match findNodeIdx nodes e.fromId, findNodeIdx nodes e.toId with
  | some ia, some ib =>
    match nodes[ia]?, nodes[ib]? with
    | some a, some b =>
      let dx := b.x - a.x
      let dy := b.y - a.y
      let d := solverD dx dy
      let L : ℝ := ((e.length.getD cfg.defaultEdgeLengthRel : ℚ) : ℝ)
      let force := (cfg.stiffness : ℝ) * (d - L)
      let ux := dx / d
      let uy := dy / d
      let damp := ((cfg.damping : ℚ) : ℝ)
      let s1 := modX nodes ia (fun x => x + force * ux * damp * (-0.5))
      let s2 := modY s1 ia (fun y => y + force * uy * damp * (-0.5))
      let s3 := modX s2 ib (fun x => x + force * ux * damp * 0.5)
      let s4 := modY s3 ib (fun y => y + force * uy * damp * 0.5)
      let s5 := modX s4 ia clamp01R
      let s6 := modY s5 ia clamp01R
      let s7 := modX s6 ib clamp01R
      modY s7 ib clamp01R
    | _, _ => nodes
  | _, _ => nodes

/-- The iteration loop: `iterations` rounds, each processing the edges
in list order. -/
noncomputable def solveIter (cfg : SolveCfg) (edges : List MapEdge) : ℕ → List PNode → List PNode
  | 0, s => s
  | k + 1, s => solveIter cfg edges k (edges.foldl (edgeStep cfg) s)

/-- Model of `layoutNodesByDistances` (lines 232–292): early return on an empty
node list, length pre-pass, circle initialization, then the fixed
iteration budget. -/
noncomputable def layoutNodesByDistances (nodes : List MapNode) (edges : List MapEdge)
    (o : MapOptions) : List PNode :=
  if nodes.length = 0 then []
  else
    let cfg := solveCfg o
    let edges' := normalizeLens o edges
    solveIter cfg edges' cfg.iterations (initNodes nodes)

/-! ## Projector and renderer lookups -/

/-- Default `width = 800`. -/
def widthOf (o : MapOptions) : ℚ := o.width.getD 800

/-- Default `height = 600`. -/
def heightOf (o : MapOptions) : ℚ := o.height.getD 600

/-- Default `padding = 24`. -/
def paddingOf (o : MapOptions) : ℚ := o.padding.getD 24

/-- Model of `projectRelativePositions` (lines 70–79): clamp the relative
coordinate and map it into `[padding, padding + inner]` where the inner
extent is floored at 1. -/
noncomputable def projectRelativePositions (nodes : List PNode) (o : MapOptions) : List PNode :=
  let w : ℝ := ((widthOf o : ℚ) : ℝ)
  let h : ℝ := ((heightOf o : ℚ) : ℝ)
  let pad : ℝ := ((paddingOf o : ℚ) : ℝ)
  let innerW := max 1 (w - pad * 2)
  let innerH := max 1 (h - pad * 2)
  nodes.map (fun n => ⟨n.id, pad + clamp01R n.x * innerW, pad + clamp01R n.y * innerH⟩)

/-- The renderer's `new Map(nodes.map((n) => [n.id, n]))`: a JS `Map`
keeps the last binding written for a key. -/
def nodesById (nodes : List PNode) (i : String) : Option PNode :=
  (nodes.filter (fun n => n.id = i)).getLast?

/-- Model of `drawEdge` (lines 97–109), reduced to its geometric content: the
line drawn, or `none` when either endpoint id is unknown (in which case
the function returns before touching the DOM). -/
def drawEdge (lookup : String → Option PNode) (e : MapEdge) :
    Option (ℝ × ℝ × ℝ × ℝ) :=
  match lookup e.fromId, lookup e.toId with
  | some a, some b => some (a.x, a.y, b.x, b.y)
  | _, _ => none

/-! ## Predicates and concrete fixtures used by the theorems -/

/-- Both coordinates of a solved node lie in the unit interval. -/
def UnitP (p : PNode) : Prop :=
  0 ≤ p.x ∧ p.x ≤ 1 ∧ 0 ≤ p.y ∧ p.y ≤ 1

/-- Every node of a solver state lies in the unit square. -/
def InUnit (l : List PNode) : Prop :=
  ∀ p ∈ l, UnitP p

/-- The id column of a solver state. -/
def idsOf (l : List PNode) : List String :=
  l.map (fun p => p.id)

/-- A node at the origin. -/
def na : MapNode :=
  ⟨"a", "location", "a", some 0, some 0, none, none⟩

/-- A node half a unit to the right. -/
def nb : MapNode :=
  ⟨"b", "location", "b", some (1/2), some 0, none, none⟩

/-- An edge between the two nodes above, with (absolute) length 2. -/
def e1 : MapEdge := ⟨"a", "b", none, some 2⟩

/-- A dangling edge (no node has id `"c"`) with (absolute) length 4. -/
def edang : MapEdge := ⟨"a", "c", none, some 4⟩

/-- A dangling edge with no length. -/
def eW : MapEdge := ⟨"a", "c", none, none⟩

/-- Options enabling the batch rescale and running one round. -/
def opts7 : MapOptions :=
  ⟨none, none, none, none, none, some 1, none, none, none, none, none, none,
   none, none, some true⟩

/-- Options with a width of 50 and a fractional padding of 24.75:
`width > 2 * padding` holds but `width - 2 * padding < 1`. -/
def oProjCex : MapOptions :=
  ⟨some 50, none, some (99/4), none, none, none, none, none, none, none,
   none, none, none, none, none⟩

/-- An app whose vault accepts every path and whose frontmatter is
empty. -/
def appDup : App :=
  ⟨fun _ => true, fun _ _ => FmVal.absent, fun _ _ => none⟩

/-- A record with path `"p"`. -/
def enDup : Entry := ⟨some ⟨"p", "p"⟩⟩

/-- A placed node used as witness input. -/
def wNode : MapNode :=
  ⟨"w", "location", "w", some (1/2), some (1/2), none, none⟩

/-! ## Basic lemmas -/

theorem toRel_unit (v : Option ℚ) (q : ℚ) (h : toRel v = some q) :
    0 ≤ q ∧ q ≤ 1 := by
  cases v with
  | none => simp [toRel] at h
  | some w =>
    simp only [toRel] at h
    split_ifs at h with h1 h2
    · simp only [Option.some.injEq] at h
      subst h
      exact ⟨h1.1, h1.2⟩
    · simp only [Option.some.injEq] at h
      subst h
      constructor
      · exact div_nonneg h2.1 (by norm_num)
      · exact (div_le_one (by norm_num)).mpr (by linarith [h2.2])

theorem clamp01R_nonneg (v : ℝ) : 0 ≤ clamp01R v :=
  le_min zero_le_one (le_max_left 0 v)

theorem clamp01R_le_one (v : ℝ) : clamp01R v ≤ 1 :=
  min_le_left 1 _

theorem clamp01R_of_mem {v : ℝ} (h0 : 0 ≤ v) (h1 : v ≤ 1) : clamp01R v = v := by
  unfold clamp01R
  rw [max_eq_right h0, min_eq_right h1]

/-! ## C3: solver defaults -/

/-- C3 (counterexample): with all three options omitted the solver does
not use 400 iterations, stiffness 0.08 and default edge length 0.5. -/
theorem solver_defaults_cex :
    ¬ ((solveCfg noOpts).iterations = 400 ∧ (solveCfg noOpts).stiffness = 0.08 ∧
       (solveCfg noOpts).defaultEdgeLengthRel = 0.5) := by
  intro h
  have h1 := h.1
  simp only [solveCfg, noOpts, Option.getD_none] at h1
  norm_num at h1

/-- C3 (amended): when the options passed to `layoutNodesByDistances`
omit `iterations`, `stiffness` and `defaultEdgeLengthRel`, the solver
runs exactly 200 rounds, uses stiffness 0.5, and uses 0.25 as the target
length for every edge whose length is absent (the 400/0.08/0.5 figures
are the plugin settings layer's defaults, which reach the solver only
through explicitly supplied options). -/
theorem solver_defaults_amended :
    (solveCfg noOpts).iterations = 200 ∧ (solveCfg noOpts).stiffness = 0.5 ∧
    (solveCfg noOpts).defaultEdgeLengthRel = 0.25 :=
  ⟨rfl, rfl, rfl⟩

/-! ## C4, C5: the length normalizer -/

/-- C4: `toRel` passes finite values in `[0,1]` through, divides finite
values in `(1,100]` by 100, and rejects non-finite, negative or
over-100 values; in particular `toRel 0 = 0`, `toRel 1 = 1`,
`toRel 50 = 0.5`, `toRel 150 = none`, `toRel (-1) = none`. -/
theorem toRel_policy :
    (∀ v : ℚ, toRel (some v) =
      (if 0 ≤ v ∧ v ≤ 1 then some v
       else if 1 < v ∧ v ≤ 100 then some (v / 100)
       else none)) ∧
    toRel none = none ∧
    toRel (some 0) = some 0 ∧ toRel (some 1) = some 1 ∧
    toRel (some 50) = some 0.5 ∧ toRel (some 150) = none ∧
    toRel (some (-1)) = none := by
  refine ⟨fun v => ?_, rfl, ?_, ?_, ?_, ?_, ?_⟩
  · simp only [toRel]
    by_cases hA : 0 ≤ v ∧ v ≤ 1
    · rw [if_pos hA, if_pos hA]
    · rw [if_neg hA, if_neg hA]
      by_cases hB : 0 ≤ v ∧ v ≤ 100
      · have hC : 1 < v ∧ v ≤ 100 := by
          constructor
          · by_contra hle
            exact hA ⟨hB.1, le_of_not_lt hle⟩
          · exact hB.2
        rw [if_pos hB, if_pos hC]
      · have hC : ¬(1 < v ∧ v ≤ 100) := fun hc =>
          hB ⟨le_trans (by norm_num) hc.1.le, hc.2⟩
        rw [if_neg hB, if_neg hC]
  all_goals simp only [toRel]; norm_num

/-- C5 (counterexample): `toRel 1.0001` is not `null`. -/
theorem toRel_boundary_cex : toRel (some 1.0001) ≠ none := by
  have h : toRel (some 1.0001) = some 0.010001 := by
    simp only [toRel]
    norm_num
  rw [h]
  simp

/-- C5 (amended): `toRel 1.0001` falls into the percentage branch and
returns `1.0001 / 100 = 0.010001`. -/
theorem toRel_boundary_amended : toRel (some 1.0001) = some 0.010001 := by
  simp only [toRel]
  norm_num

/-! ## C6: distance expression parsing -/

/-- C6: the distance expression parser maps `"CityA @ 0.4"` to target
`"CityA"` with length 0.4, `"CityA : 40"` to `"CityA"` with length 0.4
(normalized from 40), `"[[CityB#50]]"` to `"CityB"` with length 0.5,
and the bare `"CityC"` to `"CityC"` with no length. -/
theorem distance_expr_scenarios :
    parseDistanceItem (.str "CityA @ 0.4") = (some "CityA", some 0.4) ∧
    parseDistanceItem (.str "CityA : 40") = (some "CityA", some 0.4) ∧
    parseDistanceItem (.str "[[CityB#50]]") = (some "CityB", some 0.5) ∧
    parseDistanceItem (.str "CityC") = (some "CityC", none) := by
  refine ⟨?_, ?_, ?_, ?_⟩
  · simp +decide [parseDistanceItem, wikiMatch, delimMatch, delimScan, sepTail,
      numClose, closeOk, jsTrim, jsTrimL, isWs, dotChar, jsNum, digitsVal, toRel]
    norm_num
  · simp +decide [parseDistanceItem, wikiMatch, delimMatch, delimScan, sepTail,
      numClose, closeOk, jsTrim, jsTrimL, isWs, dotChar, jsNum, digitsVal, toRel]
    norm_num
  · simp +decide [parseDistanceItem, wikiMatch, splitOnChar, jsTrim, jsTrimL,
      isWs, dotChar, jsNum, digitsVal, toRel]
    norm_num
  · simp +decide [parseDistanceItem, wikiMatch, delimMatch, delimScan, sepTail,
      numClose, closeOk, jsTrim, jsTrimL, isWs, dotChar]

/-! ## Solver state lemmas -/

theorem getElem?_modAt (l : List PNode) (f : PNode → PNode) :
    ∀ i j : ℕ, (modAt l i f)[j]? = if j = i then l[j]?.map f else l[j]? := by
  induction l with
  | nil => intro i j; simp [modAt]
  | cons p r ih =>
    intro i j
    cases i with
    | zero =>
      cases j with
      | zero => simp [modAt]
      | succ k => simp [modAt]
    | succ m =>
      cases j with
      | zero => simp [modAt]
      | succ k => simpa [modAt] using ih m k

theorem getElem?_modX (l : List PNode) (i j : ℕ) (f : ℝ → ℝ) :
    (modX l i f)[j]? =
      if j = i then l[j]?.map (fun p => ⟨p.id, f p.x, p.y⟩) else l[j]? :=
  getElem?_modAt l (fun p => ⟨p.id, f p.x, p.y⟩) i j

theorem getElem?_modY (l : List PNode) (i j : ℕ) (f : ℝ → ℝ) :
    (modY l i f)[j]? =
      if j = i then l[j]?.map (fun p => ⟨p.id, p.x, f p.y⟩) else l[j]? :=
  getElem?_modAt l (fun p => ⟨p.id, p.x, f p.y⟩) i j

theorem idsOf_modAt (l : List PNode) (f : PNode → PNode)
    (hf : ∀ p, (f p).id = p.id) :
    ∀ i, idsOf (modAt l i f) = idsOf l := by
  induction l with
  | nil => intro i; simp [modAt]
  | cons p r ih =>
    intro i
    cases i with
    | zero => simp [modAt, idsOf, hf]
    | succ m => simpa [modAt, idsOf] using ih m

theorem idsOf_modX (l : List PNode) (i : ℕ) (f : ℝ → ℝ) :
    idsOf (modX l i f) = idsOf l :=
  idsOf_modAt l (fun p => ⟨p.id, f p.x, p.y⟩) (fun _ => rfl) i

theorem idsOf_modY (l : List PNode) (i : ℕ) (f : ℝ → ℝ) :
    idsOf (modY l i f) = idsOf l :=
  idsOf_modAt l (fun p => ⟨p.id, p.x, f p.y⟩) (fun _ => rfl) i

theorem edgeStep_skip (cfg : SolveCfg) (s : List PNode) (e : MapEdge)
    (h : findNodeIdx s e.fromId = none ∨ findNodeIdx s e.toId = none) :
    edgeStep cfg s e = s := by
  rcases h with h | h
  · simp [edgeStep, h]
  · cases hfa : findNodeIdx s e.fromId <;> simp [edgeStep, hfa, h]

theorem idsOf_edgeStep (cfg : SolveCfg) (s : List PNode) (e : MapEdge) :
    idsOf (edgeStep cfg s e) = idsOf s := by
  cases hfa : findNodeIdx s e.fromId with
  | none => simp [edgeStep, hfa]
  | some ia =>
    cases hfb : findNodeIdx s e.toId with
    | none => simp [edgeStep, hfa, hfb]
    | some ib =>
      cases hga : s[ia]? with
      | none => simp [edgeStep, hfa, hfb, hga]
      | some a =>
        cases hgb : s[ib]? with
        | none => simp [edgeStep, hfa, hfb, hga, hgb]
        | some b =>
          simp only [edgeStep, hfa, hfb, hga, hgb]
          rw [idsOf_modY, idsOf_modX, idsOf_modY, idsOf_modX, idsOf_modY,
            idsOf_modX, idsOf_modY, idsOf_modX]

theorem idsOf_foldl (cfg : SolveCfg) :
    ∀ (edges : List MapEdge) (s : List PNode),
      idsOf (edges.foldl (edgeStep cfg) s) = idsOf s := by
  intro edges
  induction edges with
  | nil => intro s; rfl
  | cons e rest ih =>
    intro s
    rw [List.foldl_cons, ih, idsOf_edgeStep]

theorem idsOf_solveIter (cfg : SolveCfg) (edges : List MapEdge) :
    ∀ (k : ℕ) (s : List PNode), idsOf (solveIter cfg edges k s) = idsOf s := by
  intro k
  induction k with
  | zero => intro s; rfl
  | succ m ih =>
    intro s
    rw [solveIter, ih, idsOf_foldl]

theorem idsOf_initAux (n : ℕ) :
    ∀ (nodes : List MapNode) (i : ℕ),
      idsOf (initAux n i nodes) = nodes.map (fun nd => nd.id) := by
  intro nodes
  induction nodes with
  | nil => intro i; rfl
  | cons nd rest ih =>
    intro i
    cases hx : nd.x <;> cases hy : nd.y <;>
      simp [initAux, idsOf, hx, hy] <;>
      simpa [idsOf] using ih (i + 1)

theorem findNodeIdx_eq_none (l : List PNode) (i : String)
    (h : ∀ p ∈ l, p.id ≠ i) : findNodeIdx l i = none := by
  induction l with
  | nil => rfl
  | cons p r ih =>
    simp only [findNodeIdx]
    rw [if_neg (h p (List.mem_cons_self p r))]
    rw [ih (fun p' hp' => h p' (List.mem_cons_of_mem _ hp'))]
    rfl

theorem unit_of_map_clamp {o : Option PNode} {p : PNode}
    (h : (o.map (fun q => (⟨q.id, clamp01R q.x, q.y⟩ : PNode))).map
      (fun q => (⟨q.id, q.x, clamp01R q.y⟩ : PNode)) = some p) : UnitP p := by
  cases o with
  | none => simp at h
  | some w =>
    simp only [Option.map_some', Option.some.injEq] at h
    subst h
    exact ⟨clamp01R_nonneg _, clamp01R_le_one _, clamp01R_nonneg _,
      clamp01R_le_one _⟩

theorem clamp_chain_unit (s : List PNode) (ia ib : ℕ)
    (h : ∀ (j : ℕ) (p : PNode), ¬ j = ia → ¬ j = ib → s[j]? = some p → UnitP p) :
    InUnit (modY (modX (modY (modX s ia clamp01R) ia clamp01R) ib clamp01R)
      ib clamp01R) := by
  intro p hp
  obtain ⟨j, hj⟩ := List.mem_iff_getElem?.mp hp
  rw [getElem?_modY, getElem?_modX, getElem?_modY, getElem?_modX] at hj
  by_cases hb : j = ib
  · rw [if_pos hb, if_pos hb] at hj
    exact unit_of_map_clamp hj
  · rw [if_neg hb, if_neg hb] at hj
    by_cases ha : j = ia
    · rw [if_pos ha, if_pos ha] at hj
      exact unit_of_map_clamp hj
    · rw [if_neg ha, if_neg ha] at hj
      exact h j p ha hb hj

theorem edgeStep_unit (cfg : SolveCfg) (e : MapEdge) (s : List PNode)
    (h : InUnit s) : InUnit (edgeStep cfg s e) := by
  cases hfa : findNodeIdx s e.fromId with
  | none => simpa [edgeStep, hfa] using h
  | some ia =>
    cases hfb : findNodeIdx s e.toId with
    | none => simpa [edgeStep, hfa, hfb] using h
    | some ib =>
      cases hga : s[ia]? with
      | none => simpa [edgeStep, hfa, hfb, hga] using h
      | some a =>
        cases hgb : s[ib]? with
        | none => simpa [edgeStep, hfa, hfb, hga, hgb] using h
        | some b =>
          simp only [edgeStep, hfa, hfb, hga, hgb]
          apply clamp_chain_unit
          intro j p hja hjb hsj
          rw [getElem?_modY, getElem?_modX, getElem?_modY, getElem?_modX,
            if_neg hjb, if_neg hjb, if_neg hja, if_neg hja] at hsj
          exact h p (List.mem_iff_getElem?.mpr ⟨j, hsj⟩)

theorem foldl_unit (cfg : SolveCfg) :
    ∀ (edges : List MapEdge) (s : List PNode),
      InUnit s → InUnit (edges.foldl (edgeStep cfg) s) := by
  intro edges
  induction edges with
  | nil => intro s h; exact h
  | cons e rest ih =>
    intro s h
    rw [List.foldl_cons]
    exact ih _ (edgeStep_unit cfg e s h)

theorem solveIter_unit (cfg : SolveCfg) (edges : List MapEdge) :
    ∀ (k : ℕ) (s : List PNode), InUnit s → InUnit (solveIter cfg edges k s) := by
  intro k
  induction k with
  | zero => intro s h; exact h
  | succ m ih =>
    intro s h
    rw [solveIter]
    exact ih _ (foldl_unit cfg edges s h)

theorem circle_unit (n i : ℕ) (s : String) :
    UnitP ⟨s, circleX n i, circleY n i⟩ := by
  refine ⟨?_, ?_, ?_, ?_⟩
  · show 0 ≤ circleX n i
    simp only [circleX]
    linarith [Real.neg_one_le_cos ((i : ℝ) * stepOf n)]
  · show circleX n i ≤ 1
    simp only [circleX]
    linarith [Real.cos_le_one ((i : ℝ) * stepOf n)]
  · show 0 ≤ circleY n i
    simp only [circleY]
    linarith [Real.neg_one_le_sin ((i : ℝ) * stepOf n)]
  · show circleY n i ≤ 1
    simp only [circleY]
    linarith [Real.sin_le_one ((i : ℝ) * stepOf n)]

theorem initAux_unit (n : ℕ) :
    ∀ (nodes : List MapNode) (i : ℕ),
      (∀ nd ∈ nodes, (∀ q, nd.x = some q → 0 ≤ q ∧ q ≤ 1) ∧
                     (∀ q, nd.y = some q → 0 ≤ q ∧ q ≤ 1)) →
      InUnit (initAux n i nodes) := by
  intro nodes
  induction nodes with
  | nil => intro i _ p hp; simp [initAux] at hp
  | cons nd rest ih =>
    intro i h p hp
    rw [initAux] at hp
    rcases List.mem_cons.mp hp with hphead | hptail
    · subst hphead
      rcases hx : nd.x with _ | qx <;> rcases hy : nd.y with _ | qy
      · exact circle_unit n i nd.id
      · exact circle_unit n i nd.id
      · exact circle_unit n i nd.id
      · have hxq := ((h nd (List.mem_cons_self nd rest)).1 qx hx)
        have hyq := ((h nd (List.mem_cons_self nd rest)).2 qy hy)
        refine ⟨?_, ?_, ?_, ?_⟩
        · show (0 : ℝ) ≤ ((qx : ℚ) : ℝ)
          exact_mod_cast hxq.1
        · show ((qx : ℚ) : ℝ) ≤ 1
          exact_mod_cast hxq.2
        · show (0 : ℝ) ≤ ((qy : ℚ) : ℝ)
          exact_mod_cast hyq.1
        · show ((qy : ℚ) : ℝ) ≤ 1
          exact_mod_cast hyq.2
    · exact ih (i + 1) (fun nd' h' => h nd' (List.mem_cons_of_mem _ h')) p hptail

/-! ## C1: clamp invariant of the solver -/

/-- C1: after `layoutNodesByDistances`, every node's coordinates lie in
`[0, 1]`.  The hypothesis is the spec's data-model invariant on solver
input: each coordinate is either the unplaced sentinel or a relative
coordinate in `[0, 1]`. -/
theorem layout_unit_interval (nodes : List MapNode) (edges : List MapEdge)
    (o : MapOptions)
    (h : ∀ nd ∈ nodes, (∀ q, nd.x = some q → 0 ≤ q ∧ q ≤ 1) ∧
                       (∀ q, nd.y = some q → 0 ≤ q ∧ q ≤ 1)) :
    ∀ p ∈ layoutNodesByDistances nodes edges o,
      0 ≤ p.x ∧ p.x ≤ 1 ∧ 0 ≤ p.y ∧ p.y ≤ 1 := by
  intro p hp
  unfold layoutNodesByDistances at hp
  split at hp
  · simp at hp
  · exact solveIter_unit (solveCfg o) (normalizeLens o edges)
      (solveCfg o).iterations (initNodes nodes)
      (initAux_unit nodes.length nodes 0 h) p hp

/-- C1 (witness): the invariant instantiated on one placed node with no
edges. -/
theorem layout_unit_interval_witness :
    (∀ nd ∈ [wNode], (∀ q, nd.x = some q → 0 ≤ q ∧ q ≤ 1) ∧
                     (∀ q, nd.y = some q → 0 ≤ q ∧ q ≤ 1)) ∧
    (∀ p ∈ layoutNodesByDistances [wNode] [] noOpts,
       0 ≤ p.x ∧ p.x ≤ 1 ∧ 0 ≤ p.y ∧ p.y ≤ 1) := by
  have hhyp : ∀ nd ∈ [wNode], (∀ q, nd.x = some q → 0 ≤ q ∧ q ≤ 1) ∧
      (∀ q, nd.y = some q → 0 ≤ q ∧ q ≤ 1) := by
    intro nd hnd
    rw [List.mem_singleton] at hnd
    subst hnd
    constructor <;> intro q hq <;>
      (simp only [wNode, Option.some.injEq] at hq) <;>
      (rw [← hq]; constructor <;> norm_num)
  exact ⟨hhyp, layout_unit_interval [wNode] [] noOpts hhyp⟩

/-! ## C8: the distance divisor -/

/-- C8 (counterexample): two endpoints at distance `1e-7` give a divisor
of `1e-7`, below the claimed floor of `1e-6` — the `|| 1e-6` fallback
fires only at distance exactly zero. -/
theorem divisor_floor_cex : ¬ ((1e-6 : ℝ) ≤ solverD (1e-7 - 0) (0 - 0)) := by
  have harg : ((1e-7:ℝ) - 0) * ((1e-7:ℝ) - 0) + ((0:ℝ) - 0) * ((0:ℝ) - 0)
      = (1e-7:ℝ) * (1e-7:ℝ) := by norm_num
  have hval : solverD ((1e-7:ℝ) - 0) ((0:ℝ) - 0) = (1e-7:ℝ) := by
    simp only [solverD]
    rw [harg, Real.sqrt_mul_self (by norm_num : (0:ℝ) ≤ 1e-7)]
    rw [if_neg (by norm_num : ¬ ((1e-7:ℝ) = 0))]
  rw [hval]
  norm_num

/-- C8 (amended): the divisor is always strictly positive — so the
division is never by zero — and it equals the Euclidean distance
whenever that distance is nonzero, and `1e-6` exactly when the endpoints
coincide. -/
theorem divisor_positive_amended : ∀ dx dy : ℝ,
    0 < solverD dx dy ∧
    (dx * dx + dy * dy ≠ 0 → solverD dx dy = Real.sqrt (dx * dx + dy * dy)) ∧
    (dx * dx + dy * dy = 0 → solverD dx dy = 1e-6) := by
  intro dx dy
  by_cases hs : Real.sqrt (dx * dx + dy * dy) = 0
  · refine ⟨?_, ?_, ?_⟩
    · simp only [solverD]
      rw [if_pos hs]
      norm_num
    · intro hne
      exfalso
      have h1 : dx * dx + dy * dy ≤ 0 := Real.sqrt_eq_zero'.mp hs
      have h2 : 0 ≤ dx * dx + dy * dy :=
        add_nonneg (mul_self_nonneg dx) (mul_self_nonneg dy)
      exact hne (le_antisymm h1 h2)
    · intro _
      simp only [solverD]
      rw [if_pos hs]
  · have hpos : 0 < Real.sqrt (dx * dx + dy * dy) :=
      lt_of_le_of_ne (Real.sqrt_nonneg _) (Ne.symm hs)
    refine ⟨?_, ?_, ?_⟩
    · simp only [solverD]
      rw [if_neg hs]
      exact hpos
    · intro _
      simp only [solverD]
      rw [if_neg hs]
    · intro h0
      exfalso
      rw [h0, Real.sqrt_zero] at hs
      exact hs rfl

/-- C8 (witness): at a unit horizontal offset the divisor is positive
and equals the Euclidean distance. -/
theorem divisor_positive_amended_witness :
    0 < solverD 1 0 ∧ solverD 1 0 = Real.sqrt (1 * 1 + 0 * 0) :=
  ⟨(divisor_positive_amended 1 0).1,
   (divisor_positive_amended 1 0).2.1 (by norm_num)⟩

/-! ## C2: projector bounds -/

/-- C2 (counterexample): with width 50, height 600 and padding 24.75 we
have `W > 2P` and `H > 2P`, yet a node at relative x = 1 is projected to
x = 25.75 > W − P = 25.25, because the inner extent `W − 2P = 0.5` is
floored at 1. -/
theorem projection_bounds_cex :
    (2 * paddingOf oProjCex < widthOf oProjCex ∧
     2 * paddingOf oProjCex < heightOf oProjCex) ∧
    ¬ (∀ p ∈ projectRelativePositions [(⟨"a", 1, 0⟩ : PNode)] oProjCex,
         ((paddingOf oProjCex : ℚ) : ℝ) ≤ p.x ∧
         p.x ≤ ((widthOf oProjCex : ℚ) : ℝ) - ((paddingOf oProjCex : ℚ) : ℝ)) := by
  constructor
  · constructor <;> norm_num [paddingOf, widthOf, heightOf, oProjCex]
  · intro hall
    have h1 : clamp01R (1 : ℝ) = 1 := clamp01R_of_mem (by norm_num) (by norm_num)
    have h0 : clamp01R (0 : ℝ) = 0 := clamp01R_of_mem (by norm_num) (by norm_num)
    have hproj : projectRelativePositions [(⟨"a", 1, 0⟩ : PNode)] oProjCex
        = [(⟨"a", 103/4, 99/4⟩ : PNode)] := by
      simp only [projectRelativePositions, List.map_cons, List.map_nil, h1, h0]
      have hwv : ((widthOf oProjCex : ℚ) : ℝ) - ((paddingOf oProjCex : ℚ) : ℝ) * 2
          = 1/2 := by
        simp only [widthOf, paddingOf, oProjCex, Option.getD_some]
        push_cast
        norm_num
      have hhv : ((heightOf oProjCex : ℚ) : ℝ) - ((paddingOf oProjCex : ℚ) : ℝ) * 2
          = 1101/2 := by
        simp only [heightOf, paddingOf, oProjCex, Option.getD_none, Option.getD_some]
        push_cast
        norm_num
      rw [hwv, hhv, max_eq_left (by norm_num : (1:ℝ)/2 ≤ 1),
        max_eq_right (by norm_num : (1:ℝ) ≤ 1101/2)]
      simp only [List.cons.injEq, List.nil_eq, and_true, PNode.mk.injEq, true_and]
      constructor
      · simp only [paddingOf, oProjCex, Option.getD_some]
        push_cast
        norm_num
      · simp only [paddingOf, oProjCex, Option.getD_some]
        push_cast
        norm_num
    have hm : (⟨"a", 103/4, 99/4⟩ : PNode) ∈
        projectRelativePositions [(⟨"a", 1, 0⟩ : PNode)] oProjCex := by
      rw [hproj]
      exact List.mem_singleton_self _
    obtain ⟨-, hx2⟩ := hall _ hm
    simp only [widthOf, paddingOf, oProjCex, Option.getD_some] at hx2
    push_cast at hx2
    norm_num at hx2

/-- C2 (amended): when the inner extents `W − 2P` and `H − 2P` are at
least 1 (so the floor at 1 does not distort them; `W > 2P` alone is not
enough), every projected coordinate satisfies `P ≤ x ≤ W − P` and
`P ≤ y ≤ H − P`, and the projection is exactly
`padding + clamp01(relative) * (dimension − 2 * padding)` in each
axis. -/
theorem projection_bounds_amended (nodes : List PNode) (o : MapOptions)
    (hw : 1 ≤ widthOf o - 2 * paddingOf o) (hh : 1 ≤ heightOf o - 2 * paddingOf o) :
    (∀ p ∈ projectRelativePositions nodes o,
       ((paddingOf o : ℚ) : ℝ) ≤ p.x ∧
       p.x ≤ ((widthOf o : ℚ) : ℝ) - ((paddingOf o : ℚ) : ℝ) ∧
       ((paddingOf o : ℚ) : ℝ) ≤ p.y ∧
       p.y ≤ ((heightOf o : ℚ) : ℝ) - ((paddingOf o : ℚ) : ℝ)) ∧
    projectRelativePositions nodes o = nodes.map (fun n =>
      (⟨n.id,
        ((paddingOf o : ℚ) : ℝ) +
          clamp01R n.x * (((widthOf o : ℚ) : ℝ) - 2 * ((paddingOf o : ℚ) : ℝ)),
        ((paddingOf o : ℚ) : ℝ) +
          clamp01R n.y * (((heightOf o : ℚ) : ℝ) - 2 * ((paddingOf o : ℚ) : ℝ))⟩
        : PNode)) := by
  have hwR : (1 : ℝ) ≤ ((widthOf o : ℚ) : ℝ) - ((paddingOf o : ℚ) : ℝ) * 2 := by
    have : (1 : ℚ) ≤ widthOf o - paddingOf o * 2 := by linarith [hw]
    exact_mod_cast this
  have hhR : (1 : ℝ) ≤ ((heightOf o : ℚ) : ℝ) - ((paddingOf o : ℚ) : ℝ) * 2 := by
    have : (1 : ℚ) ≤ heightOf o - paddingOf o * 2 := by linarith [hh]
    exact_mod_cast this
  have hmW : max (1 : ℝ) (((widthOf o : ℚ) : ℝ) - ((paddingOf o : ℚ) : ℝ) * 2)
      = ((widthOf o : ℚ) : ℝ) - ((paddingOf o : ℚ) : ℝ) * 2 := max_eq_right hwR
  have hmH : max (1 : ℝ) (((heightOf o : ℚ) : ℝ) - ((paddingOf o : ℚ) : ℝ) * 2)
      = ((heightOf o : ℚ) : ℝ) - ((paddingOf o : ℚ) : ℝ) * 2 := max_eq_right hhR
  constructor
  · intro p hp
    simp only [projectRelativePositions, List.mem_map] at hp
    obtain ⟨n, _, rfl⟩ := hp
    dsimp only
    rw [hmW, hmH]
    have hbW : clamp01R n.x * (((widthOf o : ℚ) : ℝ) - ((paddingOf o : ℚ) : ℝ) * 2)
        ≤ ((widthOf o : ℚ) : ℝ) - ((paddingOf o : ℚ) : ℝ) * 2 :=
      mul_le_of_le_one_left (by linarith [hwR]) (clamp01R_le_one _)
    have hbH : clamp01R n.y * (((heightOf o : ℚ) : ℝ) - ((paddingOf o : ℚ) : ℝ) * 2)
        ≤ ((heightOf o : ℚ) : ℝ) - ((paddingOf o : ℚ) : ℝ) * 2 :=
      mul_le_of_le_one_left (by linarith [hhR]) (clamp01R_le_one _)
    have h0W : 0 ≤ clamp01R n.x * (((widthOf o : ℚ) : ℝ) - ((paddingOf o : ℚ) : ℝ) * 2) :=
      mul_nonneg (clamp01R_nonneg _) (by linarith [hwR])
    have h0H : 0 ≤ clamp01R n.y * (((heightOf o : ℚ) : ℝ) - ((paddingOf o : ℚ) : ℝ) * 2) :=
      mul_nonneg (clamp01R_nonneg _) (by linarith [hhR])
    refine ⟨by linarith, by linarith, by linarith, by linarith⟩
  · simp only [projectRelativePositions]
    rw [hmW, hmH]
    refine List.map_congr_left fun n _ => ?_
    simp only [PNode.mk.injEq, true_and]
    constructor <;> ring_nf

/-- C2 (witness): the amended bounds instantiated at the default
800×600 canvas with padding 24. -/
theorem projection_bounds_amended_witness :
    ((1:ℚ) ≤ widthOf noOpts - 2 * paddingOf noOpts) ∧
    ((1:ℚ) ≤ heightOf noOpts - 2 * paddingOf noOpts) ∧
    (∀ p ∈ projectRelativePositions [(⟨"w", 1/2, 1/2⟩ : PNode)] noOpts,
       ((paddingOf noOpts : ℚ) : ℝ) ≤ p.x ∧
       p.x ≤ ((widthOf noOpts : ℚ) : ℝ) - ((paddingOf noOpts : ℚ) : ℝ) ∧
       ((paddingOf noOpts : ℚ) : ℝ) ≤ p.y ∧
       p.y ≤ ((heightOf noOpts : ℚ) : ℝ) - ((paddingOf noOpts : ℚ) : ℝ)) := by
  have hw : (1:ℚ) ≤ widthOf noOpts - 2 * paddingOf noOpts := by
    norm_num [widthOf, paddingOf, noOpts]
  have hh : (1:ℚ) ≤ heightOf noOpts - 2 * paddingOf noOpts := by
    norm_num [heightOf, paddingOf, noOpts]
  exact ⟨hw, hh, (projection_bounds_amended [(⟨"w", 1/2, 1/2⟩ : PNode)] noOpts hw hh).1⟩

/-! ## Length pre-pass lemmas -/

theorem foldl_max_le (xs : List ℚ) :
    ∀ x : ℚ, x ≤ 1 → (∀ y ∈ xs, y ≤ 1) → xs.foldl max x ≤ 1 := by
  induction xs with
  | nil => intro x hx _; simpa using hx
  | cons y ys ih =>
    intro x hx hall
    rw [List.foldl_cons]
    exact ih (max x y) (max_le hx (hall y (List.mem_cons_self y ys)))
      (fun z hz => hall z (List.mem_cons_of_mem _ hz))

theorem normalizeLens_flagOff (o : MapOptions) (edges : List MapEdge)
    (h : o.normalizeAbsoluteLengths.getD false = false) :
    normalizeLens o edges = edges := by
  simp [normalizeLens, h]

theorem normalizeLens_small (o : MapOptions) (edges : List MapEdge)
    (h : ∀ e ∈ edges, ∀ q, e.length = some q → q ≤ 1) :
    normalizeLens o edges = edges := by
  have hlen : ∀ q ∈ edges.filterMap (fun e => e.length), q ≤ 1 := by
    intro q hq
    obtain ⟨e, he, hq'⟩ := List.mem_filterMap.mp hq
    exact h e he q hq'
  have hmax : maxLenOf (edges.filterMap (fun e => e.length)) ≤ 1 := by
    rcases hr : edges.filterMap (fun e => e.length) with _ | ⟨x, xs⟩
    · rw [hr]
      norm_num [maxLenOf]
    · rw [hr] at hlen
      rw [hr, show maxLenOf (x :: xs) = xs.foldl max x from rfl]
      exact foldl_max_le xs x (hlen x (List.mem_cons_self x xs))
        (fun y hy => hlen y (List.mem_cons_of_mem _ hy))
  simp only [normalizeLens]
  rw [if_neg]
  intro hc
  exact absurd hc.2 (not_lt.mpr hmax)

/-! ## Dangling edge machinery -/

theorem round_dangling (cfg : SolveCfg) (e : MapEdge) (l₁ l₂ : List MapEdge)
    (s : List PNode) (hd : e.fromId ∉ idsOf s ∨ e.toId ∉ idsOf s) :
    (l₁ ++ e :: l₂).foldl (edgeStep cfg) s = (l₁ ++ l₂).foldl (edgeStep cfg) s := by
  rw [List.foldl_append, List.foldl_append, List.foldl_cons]
  have hids : idsOf (l₁.foldl (edgeStep cfg) s) = idsOf s := idsOf_foldl cfg l₁ s
  have hskip : edgeStep cfg (l₁.foldl (edgeStep cfg) s) e
      = l₁.foldl (edgeStep cfg) s := by
    apply edgeStep_skip
    rcases hd with hd | hd
    · left
      apply findNodeIdx_eq_none
      intro p hp hpe
      exact hd (hids ▸ hpe ▸ List.mem_map_of_mem (fun p => p.id) hp)
    · right
      apply findNodeIdx_eq_none
      intro p hp hpe
      exact hd (hids ▸ hpe ▸ List.mem_map_of_mem (fun p => p.id) hp)
  rw [hskip]

theorem solveIter_dangling (cfg : SolveCfg) (e : MapEdge) (l₁ l₂ : List MapEdge) :
    ∀ (k : ℕ) (s : List PNode), (e.fromId ∉ idsOf s ∨ e.toId ∉ idsOf s) →
      solveIter cfg (l₁ ++ e :: l₂) k s = solveIter cfg (l₁ ++ l₂) k s := by
  intro k
  induction k with
  | zero => intro s _; rfl
  | succ m ih =>
    intro s hd
    rw [solveIter, solveIter, round_dangling cfg e l₁ l₂ s hd]
    apply ih
    rw [idsOf_foldl]
    exact hd

/-- Zeta-free reformulation of the solver entry point. -/
theorem layout_eq (nodes : List MapNode) (edges : List MapEdge) (o : MapOptions) :
    layoutNodesByDistances nodes edges o =
      if nodes.length = 0 then []
      else solveIter (solveCfg o) (normalizeLens o edges)
        (solveCfg o).iterations (initNodes nodes) := rfl

theorem mem_idsOf_layout (nodes : List MapNode) (edges : List MapEdge)
    (o : MapOptions) (i : String)
    (h : i ∈ idsOf (layoutNodesByDistances nodes edges o)) :
    ∃ nd ∈ nodes, nd.id = i := by
  rw [layout_eq] at h
  by_cases hc : nodes.length = 0
  · rw [if_pos hc] at h
    simp [idsOf] at h
  · rw [if_neg hc, idsOf_solveIter] at h
    have : idsOf (initNodes nodes) = nodes.map (fun nd => nd.id) :=
      idsOf_initAux nodes.length nodes 0
    rw [this] at h
    obtain ⟨nd, hnd, hh⟩ := List.mem_map.mp h
    exact ⟨nd, hnd, hh⟩

theorem nodesById_eq_none (l : List PNode) (i : String)
    (h : ∀ p ∈ l, p.id ≠ i) : nodesById l i = none := by
  unfold nodesById
  have hfil : l.filter (fun p => p.id = i) = [] := by
    rw [List.filter_eq_nil_iff]
    intro p hp
    simpa using h p hp
  rw [hfil]
  rfl

theorem idsOf_project (nodes : List PNode) (o : MapOptions) :
    idsOf (projectRelativePositions nodes o) = idsOf nodes := by
  simp only [projectRelativePositions, idsOf, List.map_map]
  rfl

/-! ## C7: dangling edges -/

/-- C7 (counterexample): with the batch rescale enabled, a dangling edge
whose length is the maximum changes the rescale divisor for the other
edges and hence the solved positions: removing the dangling edge moves
both nodes. -/
theorem dangling_edge_cex :
    (∀ nd ∈ [na, nb], nd.id ≠ "c") ∧
    layoutNodesByDistances [na, nb] [e1, edang] opts7
      ≠ layoutNodesByDistances [na, nb] [e1] opts7 := by
  have hA1 : normalizeLens opts7 [e1, edang]
      = [(⟨"a", "b", none, some (1/2)⟩ : MapEdge), ⟨"a", "c", none, some 1⟩] := by
    simp only [normalizeLens, maxLenOf, e1, edang, opts7, List.filterMap_cons,
      List.filterMap_nil, Option.getD_some, List.foldl_cons, List.foldl_nil]
    norm_num
  have hA2 : normalizeLens opts7 [e1]
      = [(⟨"a", "b", none, some 1⟩ : MapEdge)] := by
    simp only [normalizeLens, maxLenOf, e1, opts7, List.filterMap_cons,
      List.filterMap_nil, Option.getD_some, List.foldl_cons, List.foldl_nil]
    norm_num
  have hI : initNodes [na, nb] = [(⟨"a", 0, 0⟩ : PNode), ⟨"b", 1/2, 0⟩] := by
    simp only [initNodes, initAux, na, nb, PNode.mk.injEq, List.cons.injEq]
    push_cast
    norm_num
  have hCfg : solveCfg opts7 = (⟨1/4, 1, 1/2, 17/20⟩ : SolveCfg) := by
    simp only [solveCfg, opts7, Option.getD_none, Option.getD_some, SolveCfg.mk.injEq]
    norm_num
  have hone : ∀ (c : SolveCfg) (edges : List MapEdge) (s : List PNode),
      solveIter c edges 1 s = edges.foldl (edgeStep c) s := fun _ _ _ => rfl
  have hd12 : solverD ((1:ℝ)/2 - 0) ((0:ℝ) - 0) = 1/2 := by
    simp only [solverD]
    rw [show ((1:ℝ)/2 - 0) * ((1:ℝ)/2 - 0) + ((0:ℝ) - 0) * ((0:ℝ) - 0)
        = (1/2 : ℝ) * (1/2 : ℝ) by norm_num]
    rw [Real.sqrt_mul_self (by norm_num : (0:ℝ) ≤ 1/2)]
    rw [if_neg (by norm_num : ¬ ((1:ℝ)/2 = 0))]
  have hf1 : findNodeIdx [(⟨"a", 0, 0⟩ : PNode), ⟨"b", 1/2, 0⟩] "a" = some 0 := rfl
  have hf2 : findNodeIdx [(⟨"a", 0, 0⟩ : PNode), ⟨"b", 1/2, 0⟩] "b" = some 1 := rfl
  have hfc : findNodeIdx [(⟨"a", 0, 0⟩ : PNode), ⟨"b", 1/2, 0⟩] "c" = none := rfl
  have hg1 : [(⟨"a", 0, 0⟩ : PNode), ⟨"b", 1/2, 0⟩][(0:ℕ)]? = some ⟨"a", 0, 0⟩ := rfl
  have hg2 : [(⟨"a", 0, 0⟩ : PNode), ⟨"b", 1/2, 0⟩][(1:ℕ)]? = some ⟨"b", 1/2, 0⟩ := rfl
  have hstep1 : edgeStep ⟨1/4, 1, 1/2, 17/20⟩ [(⟨"a", 0, 0⟩ : PNode), ⟨"b", 1/2, 0⟩]
      ⟨"a", "b", none, some (1/2)⟩ = [(⟨"a", 0, 0⟩ : PNode), ⟨"b", 1/2, 0⟩] := by
    simp only [edgeStep, hf1, hf2, hg1, hg2, Option.getD_some, modX, modY, modAt]
    rw [hd12]
    push_cast
    norm_num [clamp01R]
  have hstep2 : edgeStep ⟨1/4, 1, 1/2, 17/20⟩ [(⟨"a", 0, 0⟩ : PNode), ⟨"b", 1/2, 0⟩]
      ⟨"a", "c", none, some 1⟩ = [(⟨"a", 0, 0⟩ : PNode), ⟨"b", 1/2, 0⟩] :=
    edgeStep_skip _ _ _ (Or.inr hfc)
  have hstepR : edgeStep ⟨1/4, 1, 1/2, 17/20⟩ [(⟨"a", 0, 0⟩ : PNode), ⟨"b", 1/2, 0⟩]
      ⟨"a", "b", none, some 1⟩
      = [(⟨"a", 17/160, 0⟩ : PNode), ⟨"b", 63/160, 0⟩] := by
    simp only [edgeStep, hf1, hf2, hg1, hg2, Option.getD_some, modX, modY, modAt]
    rw [hd12]
    push_cast
    norm_num [clamp01R]
  have hL : layoutNodesByDistances [na, nb] [e1, edang] opts7
      = [(⟨"a", 0, 0⟩ : PNode), ⟨"b", 1/2, 0⟩] := by
    rw [layout_eq, if_neg (by simp : ¬ ([na, nb].length = 0)), hA1, hCfg, hI]
    dsimp only
    rw [hone, List.foldl_cons, List.foldl_cons, List.foldl_nil, hstep1, hstep2]
  have hR : layoutNodesByDistances [na, nb] [e1] opts7
      = [(⟨"a", 17/160, 0⟩ : PNode), ⟨"b", 63/160, 0⟩] := by
    rw [layout_eq, if_neg (by simp : ¬ ([na, nb].length = 0)), hA2, hCfg, hI]
    dsimp only
    rw [hone, List.foldl_cons, List.foldl_nil, hstepR]
  constructor
  · intro nd hnd
    rcases List.mem_cons.mp hnd with h | h
    · subst h; simp [na]
    · rw [List.mem_singleton] at h; subst h; simp [nb]
  · intro heq
    rw [hL, hR] at heq
    simp only [List.cons.injEq, PNode.mk.injEq] at heq
    exact absurd heq.1.2.1 (by norm_num)

/-- C7 (amended): provided the batch rescale is a no-op — the
`normalizeAbsoluteLengths` option is off, or every edge length is ≤ 1
(as for every graph produced by the builder) — an edge whose `fromId` or
`toId` matches no node leaves every node position exactly as if the edge
were absent, and the renderer draws no line for it.  (Without that
proviso a dangling edge can still change other nodes through the rescale
divisor, as the counterexample shows.) -/
theorem dangling_edge_amended (nodes : List MapNode) (l₁ l₂ : List MapEdge)
    (e : MapEdge) (o : MapOptions)
    (hd : (∀ nd ∈ nodes, nd.id ≠ e.fromId) ∨ (∀ nd ∈ nodes, nd.id ≠ e.toId))
    (hn : o.normalizeAbsoluteLengths.getD false = false ∨
          ∀ e' ∈ l₁ ++ e :: l₂, ∀ q, e'.length = some q → q ≤ 1) :
    layoutNodesByDistances nodes (l₁ ++ e :: l₂) o
      = layoutNodesByDistances nodes (l₁ ++ l₂) o ∧
    drawEdge (nodesById (projectRelativePositions
      (layoutNodesByDistances nodes (l₁ ++ e :: l₂) o) o)) e = none := by
  have hn1 : normalizeLens o (l₁ ++ e :: l₂) = l₁ ++ e :: l₂ := by
    rcases hn with hn | hn
    · exact normalizeLens_flagOff o _ hn
    · exact normalizeLens_small o _ hn
  have hn2 : normalizeLens o (l₁ ++ l₂) = l₁ ++ l₂ := by
    rcases hn with hn | hn
    · exact normalizeLens_flagOff o _ hn
    · apply normalizeLens_small
      intro e' he' q hq
      apply hn e' _ q hq
      rcases List.mem_append.mp he' with h | h
      · exact List.mem_append_left _ h
      · exact List.mem_append_right _ (List.mem_cons_of_mem _ h)
  have hini : idsOf (initNodes nodes) = nodes.map (fun nd => nd.id) :=
    idsOf_initAux nodes.length nodes 0
  have hdangl : (e.fromId ∉ idsOf (initNodes nodes)) ∨
      (e.toId ∉ idsOf (initNodes nodes)) := by
    rcases hd with hd | hd
    · left
      rw [hini]
      intro hmem
      obtain ⟨nd, hnd, hh⟩ := List.mem_map.mp hmem
      exact hd nd hnd hh
    · right
      rw [hini]
      intro hmem
      obtain ⟨nd, hnd, hh⟩ := List.mem_map.mp hmem
      exact hd nd hnd hh
  have hlayout : layoutNodesByDistances nodes (l₁ ++ e :: l₂) o
      = layoutNodesByDistances nodes (l₁ ++ l₂) o := by
    rw [layout_eq, layout_eq, hn1, hn2]
    by_cases hc : nodes.length = 0
    · rw [if_pos hc, if_pos hc]
    · rw [if_neg hc, if_neg hc]
      exact solveIter_dangling (solveCfg o) e l₁ l₂ (solveCfg o).iterations
        (initNodes nodes) hdangl
  refine ⟨hlayout, ?_⟩
  have hnotin : ∀ i : String, (∀ nd ∈ nodes, nd.id ≠ i) →
      ∀ p ∈ projectRelativePositions
        (layoutNodesByDistances nodes (l₁ ++ e :: l₂) o) o, p.id ≠ i := by
    intro i hi p hp hpe
    have hmem : p.id ∈ idsOf (projectRelativePositions
        (layoutNodesByDistances nodes (l₁ ++ e :: l₂) o) o) :=
      List.mem_map_of_mem (fun p => p.id) hp
    rw [idsOf_project] at hmem
    obtain ⟨nd, hnd, hh⟩ := mem_idsOf_layout nodes _ o p.id hmem
    exact hi nd hnd (hh.trans hpe)
  rcases hd with hd | hd
  · have hlook : nodesById (projectRelativePositions
        (layoutNodesByDistances nodes (l₁ ++ e :: l₂) o) o) e.fromId = none :=
      nodesById_eq_none _ _ (hnotin e.fromId hd)
    unfold drawEdge
    rw [hlook]
  · have hlook : nodesById (projectRelativePositions
        (layoutNodesByDistances nodes (l₁ ++ e :: l₂) o) o) e.toId = none :=
      nodesById_eq_none _ _ (hnotin e.toId hd)
    unfold drawEdge
    rw [hlook]
    cases nodesById (projectRelativePositions
      (layoutNodesByDistances nodes (l₁ ++ e :: l₂) o) o) e.fromId <;> rfl

/-- C7 (witness): one node, one dangling edge, batch rescale off. -/
theorem dangling_edge_amended_witness :
    layoutNodesByDistances [na] ([] ++ eW :: []) noOpts
      = layoutNodesByDistances [na] ([] ++ []) noOpts ∧
    drawEdge (nodesById (projectRelativePositions
      (layoutNodesByDistances [na] ([] ++ eW :: []) noOpts) noOpts)) eW = none :=
  dangling_edge_amended [na] [] [] eW noOpts
    (Or.inr (by
      intro nd hnd
      rw [List.mem_singleton] at hnd
      subst hnd
      simp [na, eW]))
    (Or.inl rfl)

/-! ## Builder lemmas -/

/-- Zeta-free reformulation of the builder entry point. -/
theorem build_eq (app : App) (entries : List Entry) (o : MapOptions) :
    buildMapDataFromEntries app entries o
      = entries.foldl (buildStep app (o.typeKey.getD "type") (o.nameKey.getD "name")
          (o.colorKey.getD "color") (o.sizeKey.getD "size")
          (match o.distancesKeys with
           | some (k :: ks) => k :: ks
           | _ => ["distances", "pathways"])
          (o.resolveLinks.getD true)) ([], []) := rfl

theorem build_nodes_aux (app : App) (tK nK cK sK : String) (dKeys : List String)
    (rL : Bool) :
    ∀ (entries : List Entry) (acc : List MapNode × List MapEdge),
      (entries.foldl (buildStep app tK nK cK sK dKeys rL) acc).1
        = acc.1 ++ (entries.filterMap (entryFile app)).map
            (nodeOfEntry app tK nK cK sK) := by
  intro entries
  induction entries with
  | nil => intro acc; simp
  | cons en rest ih =>
    intro acc
    rw [List.foldl_cons]
    cases hf : entryFile app en with
    | none =>
      rw [show buildStep app tK nK cK sK dKeys rL acc en = acc by
        simp [buildStep, hf]]
      rw [ih]
      simp [List.filterMap_cons, hf]
    | some f =>
      rw [show buildStep app tK nK cK sK dKeys rL acc en
          = (acc.1 ++ [nodeOfEntry app tK nK cK sK f],
             acc.2 ++ edgesOfEntry app dKeys rL f) by
        simp [buildStep, hf]]
      rw [ih]
      simp [List.filterMap_cons, hf]

theorem parseItem_len_unit (p : DistItem) (t : Option String) (q : ℚ)
    (h : parseDistanceItem p = (t, some q)) : 0 ≤ q ∧ q ≤ 1 := by
  cases p with
  | str s =>
    simp only [parseDistanceItem] at h
    cases hw : wikiMatch s with
    | some inside =>
      simp only [hw] at h
      rw [Prod.mk.injEq] at h
      obtain ⟨-, hlen⟩ := h
      rcases hfrag : ((splitOnChar '#' inside.data).map
          (fun l => (⟨l⟩ : String))).get? 1 with _ | fs
      · simp only [hfrag] at hlen
        exact absurd hlen (by simp)
      · simp only [hfrag] at hlen
        by_cases hne : fs ≠ ""
        · rw [if_pos hne] at hlen
          exact toRel_unit _ q hlen
        · rw [if_neg hne] at hlen
          exact absurd hlen (by simp)
    | none =>
      simp only [hw] at h
      cases hd : delimMatch s with
      | some m =>
        simp only [hd] at h
        rw [Prod.mk.injEq] at h
        exact toRel_unit _ q h.2
      | none =>
        simp only [hd] at h
        rw [Prod.mk.injEq] at h
        exact absurd h.2 (by simp)
  | obj tgt pth idf dl =>
    simp only [parseDistanceItem] at h
    rw [Prod.mk.injEq] at h
    exact toRel_unit _ q h.2
  | other =>
    simp [parseDistanceItem] at h

theorem edgesOfEntry_len_unit (app : App) (dKeys : List String) (rL : Bool)
    (f : EFile) :
    ∀ e ∈ edgesOfEntry app dKeys rL f, ∀ q, e.length = some q →
      0 ≤ q ∧ q ≤ 1 := by
  intro e he q hlen
  unfold edgesOfEntry at he
  obtain ⟨p, hp, hpe⟩ := List.mem_filterMap.mp he
  rcases hP : parseDistanceItem p with ⟨tgt, len⟩
  rw [hP] at hpe
  cases tgt with
  | none => simp at hpe
  | some t =>
    simp only [Option.some.injEq] at hpe
    rw [← hpe] at hlen
    simp only at hlen
    exact parseItem_len_unit p (some t) q (by rw [hP, hlen])

theorem build_edges_aux (app : App) (tK nK cK sK : String) (dKeys : List String)
    (rL : Bool) :
    ∀ (entries : List Entry) (acc : List MapNode × List MapEdge),
      (∀ e ∈ acc.2, ∀ q, e.length = some q → 0 ≤ q ∧ q ≤ 1) →
      ∀ e ∈ (entries.foldl (buildStep app tK nK cK sK dKeys rL) acc).2,
        ∀ q, e.length = some q → 0 ≤ q ∧ q ≤ 1 := by
  intro entries
  induction entries with
  | nil => intro acc hacc; exact hacc
  | cons en rest ih =>
    intro acc hacc
    rw [List.foldl_cons]
    apply ih
    cases hf : entryFile app en with
    | none =>
      rw [show buildStep app tK nK cK sK dKeys rL acc en = acc by
        simp [buildStep, hf]]
      exact hacc
    | some f =>
      rw [show buildStep app tK nK cK sK dKeys rL acc en
          = (acc.1 ++ [nodeOfEntry app tK nK cK sK f],
             acc.2 ++ edgesOfEntry app dKeys rL f) by
        simp [buildStep, hf]]
      intro e he q hq
      rcases List.mem_append.mp he with h | h
      · exact hacc e h q hq
      · exact edgesOfEntry_len_unit app dKeys rL f e h q hq

/-! ## C9: duplicate record ids -/

/-- C9 (counterexample): two records with the same path yield two nodes
with that id in the builder output — not exactly one. -/
theorem duplicate_id_cex :
    ¬ (((buildMapDataFromEntries appDup [enDup, enDup] noOpts).1.filter
        (fun n => n.id = "p")).length = 1) := by
  have h2 : ((buildMapDataFromEntries appDup [enDup, enDup] noOpts).1.filter
      (fun n => n.id = "p")).length = 2 := rfl
  omega

/-- C9 (amended): the builder pushes exactly one node per record with a
resolvable identity, in order, keyed by the record's path — so duplicate
paths yield multiple nodes with the same id in the node list (only the
renderer's id→Map lookup later collapses them, keeping the last). -/
theorem duplicate_id_amended (app : App) (entries : List Entry) (o : MapOptions) :
    (buildMapDataFromEntries app entries o).1.map (fun n => n.id)
      = (entries.filterMap (entryFile app)).map (fun f => f.path) := by
  rw [build_eq, build_nodes_aux]
  simp only [List.nil_append, List.map_map]
  exact List.map_congr_left fun f _ => rfl

/-! ## C10: builder edge lengths stay relative -/

/-- C10: every edge produced by the builder has a length that is either
absent or in `[0, 1]` (every length passes through `toRel`), and
consequently the batch-rescale branch of the solver never fires on a
builder-produced edge list, whatever the options. -/
theorem builder_lengths_unit (app : App) (entries : List Entry) (o : MapOptions) :
    (∀ e ∈ (buildMapDataFromEntries app entries o).2,
       e.length = none ∨ ∃ q, e.length = some q ∧ 0 ≤ q ∧ q ≤ 1) ∧
    (∀ o' : MapOptions,
       normalizeLens o' (buildMapDataFromEntries app entries o).2
         = (buildMapDataFromEntries app entries o).2) := by
  have hrange : ∀ e ∈ (buildMapDataFromEntries app entries o).2,
      ∀ q, e.length = some q → 0 ≤ q ∧ q ≤ 1 := by
    intro e he q hq
    rw [build_eq] at he
    exact build_edges_aux app _ _ _ _ _ _ entries ([], []) (by simp) e he q hq
  constructor
  · intro e he
    cases hl : e.length with
    | none => exact Or.inl rfl
    | some q => exact Or.inr ⟨q, rfl, hrange e he q hl⟩
  · intro o'
    exact normalizeLens_small o' _ (fun e he q hq => (hrange e he q hq).2)

/-- C10 (witness): the range and no-rescale facts instantiated on one
concrete record. -/
theorem builder_lengths_unit_witness :
    (∀ e ∈ (buildMapDataFromEntries appDup [enDup] noOpts).2,
       e.length = none ∨ ∃ q, e.length = some q ∧ 0 ≤ q ∧ q ≤ 1) ∧
    normalizeLens noOpts (buildMapDataFromEntries appDup [enDup] noOpts).2
      = (buildMapDataFromEntries appDup [enDup] noOpts).2 :=
  ⟨(builder_lengths_unit appDup [enDup] noOpts).1,
   (builder_lengths_unit appDup [enDup] noOpts).2 noOpts⟩

end MapViz
